import Mathlib

/-!
Verification development for the filesystem-path core of λcommon
(`src/system/fs.cpp`).  The embedding fixes the POSIX build configuration
(`LAMBDA_WINDOWS` undefined): the preferred separator is `/`, the native
string is the byte string held in `path::_path`, modelled as `List Char`,
and the error constants follow the `#define`s at the top of the file
(`ERROR_INVALID_PARAMETER = EINVAL = 22`, `ERROR_PATH_NOT_FOUND = ENOENT = 2`).

OS-touching operations are modelled over a small oracle of what the OS
reports for the paths involved: a filesystem entry is an `fnode` tree
(symlink targets are inlined, so following a link is structural descent),
and per-call results such as `stat`, `readlink` contents or `chmod` errors
are explicit parameters.  Pure string manipulation (decomposition, append,
the path iterator) is transliterated directly from the source.
-/

set_option autoImplicit false

/-- File types of `lambdacommon::fs::file_type` (POSIX grammar). -/
inductive ftype where
  | not_found
  | unknown
  | none
  | regular
  | directory
  | symlink
  | character
  | block
  | fifo
  | socket
  deriving DecidableEq, Repr

/- A filesystem subtree as the OS reveals it to the library: regular files,
directories with named children, symlinks with their target inlined
(so `stat`-style resolution is structural descent), dangling symlinks
(chains ending at a missing target), and one representative of the other
non-directory types. -/
mutual
inductive fnode where
  | regular : fnode
  | dangling : fnode
  | other : fnode
  | symlink : fnode → fnode
  | dirN : flist → fnode
inductive flist where
  | nil : flist
  | cons : List Char → fnode → flist → flist
end

/-- Resolution of a node as `stat` performs it: descend through symlinks;
a chain ending at a missing target resolves to nothing. -/
def resolveNode : fnode → Option fnode
  | .symlink t => resolveNode t
  | .dangling => Option.none
  | .regular => some .regular
  | .other => some .other
  | .dirN cs => some (.dirN cs)

/-- Whether `path::exists()` holds: the single `stat` call succeeds. -/
def existsNode (n : fnode) : Bool := (resolveNode n).isSome

/-- The type reported by `internal_status` (fs.cpp lines 141-161): `lstat`
first; if that reports a symlink, one `stat` call resolves the chain, and
when that `stat` fails (dangling chain) the type stays `symlink`. -/
def followedType : fnode → ftype
  | .regular => ftype.regular
  | .dangling => ftype.symlink
  | .other => ftype.character
  | .dirN _ => ftype.directory
  | .symlink t => followedType t

/-- Status type of an optional entry: `internal_status` reports `not_found`
when `lstat` fails with `ENOENT`. -/
def statusOf : Option fnode → ftype
  | Option.none => ftype.not_found
  | some n => followedType n

/- Return value of `path::remove_all` (fs.cpp lines 767-800) on an existing
entry, in the fault-free OS model (no permission errors, so the error-code
channel is never set and every removal call succeeds).  The traversal guard
is transliterated from line 782: a child is recursed into exactly when its
FOLLOWED status (`iter->status(ec)`, which resolves symlinks) is a directory
and not `symlink`; since a followed status of `symlink` only arises for
dangling chains, which are never directories, the guard reduces to
`followedType c = directory`.  `removeAllLink` is the recursive call landing
on a symlink child: enumeration (`directory_iterator`) follows the link, so
the target directory's children are counted and removed, and the final
`remove()` unlinks the link itself (one entry). -/
mutual
def removeAllNode : fnode → Nat
  | .regular => 1
  | .dangling => 1
  | .other => 1
  | .dirN cs => removeAllChildren cs + 1
  | .symlink t => removeAllLink t
def removeAllLink : fnode → Nat
  | .symlink u => removeAllLink u
  | .dirN cs => removeAllChildren cs + 1
  | .regular => 1
  | .dangling => 1
  | .other => 1
def removeAllChildren : flist → Nat
  | .nil => 0
  | .cons _ c rest =>
      (if followedType c = ftype.directory then removeAllNode c else 1) +
        removeAllChildren rest
end

/-- Maximum value of a 64-bit `uintmax_t`: the `static_cast<uintmax_t>(-1)`
sentinel used by `remove_all`. -/
def uintmaxMax : Nat := 18446744073709551615

/-- Top-level `path::remove_all(ec)` in the fault-free model.  Line 770
refuses the exact string `/` and returns the sentinel before touching
anything; a missing entry skips the traversal and the final `remove` fails
silently with `ENOENT` (count 0).  Child paths produced by the directory
iterator always extend the base path with a nonempty name, so the root
guard can never fire inside the recursion, which is why the recursive part
(`removeAllNode`) carries no path argument. -/
def remove_all (p : List Char) (t : Option fnode) : Nat :=
  if p = ['/'] then uintmaxMax
  else
    match t with
    | Option.none => 0
    | some n => removeAllNode n


/-!
Pure path-string machinery (fs.cpp lines 204-263, 400-412, 918-1029),
POSIX configuration: `preferred_separator` is the forward slash and the
`FP_ST` macro is the identity.
-/

/-- The `std::isprint` check of `path::root_name` in the C locale:
printable ASCII. -/
def isPrintable (c : Char) : Bool := 32 ≤ c.toNat && c.toNat ≤ 126

/-- Index of the first character of `l` that belongs to `cs`, or `l.length`
when there is none. -/
def findCharIdx (cs : List Char) : List Char → Nat
  | [] => 0
  | c :: rest => if cs.contains c then 0 else findCharIdx cs rest + 1

/-- First index `≥ k` of a character of `cs` in `s`, or `s.length` when
there is none: `std::find` / `find_first_of` starting at `k` (the result
`s.length` plays the role of the end iterator / `npos`). -/
def findCharFrom (s : List Char) (k : Nat) (cs : List Char) : Nat :=
  min k s.length + findCharIdx cs (s.drop k)

/-- The slice `s[a..b)`, as `basic_string::assign(first, last)` on
iterators at offsets `a` and `b`. -/
def sliceL (s : List Char) (a b : Nat) : List Char := (s.take b).drop a

/-- Length of the leading run of separators of `l`, stopping before a
non-separator. -/
def countWhileSep : List Char → Nat
  | [] => 0
  | c :: rest => if c = '/' then countWhileSep rest + 1 else 0

/-- Result of `while (i != _last && *i == sep) ++i` started at offset `k`. -/
def skipWhileSep (s : List Char) (k : Nat) : Nat :=
  min k s.length + countWhileSep (s.drop k)

/-- Transliteration of `path::root_name` (fs.cpp lines 236-247), POSIX
grammar: only the `//server` UNC-like branch exists (the drive-letter
branch is Windows-only).  Note the search for the terminating separator
starts at index 3 and accepts a backslash as terminator
(`find_first_of("/\\", 3)`). -/
def rootName (s : List Char) : List Char :=
  if 2 < s.length ∧ s.getD 0 ' ' = '/' ∧ s.getD 1 ' ' = '/' ∧ s.getD 2 ' ' ≠ '/' ∧
      isPrintable (s.getD 2 ' ') = true then
    if findCharFrom s 3 ['/', '\\'] = s.length then s
    else s.take (findCharFrom s 3 ['/', '\\'])
  else []

/-- Transliteration of `path::root_directory` (fs.cpp lines 249-254): the
single preferred separator immediately after the root name, if present. -/
def rootDirectory (s : List Char) : List Char :=
  if (rootName s).length < s.length ∧ s.getD (rootName s).length ' ' = '/' then ['/']
  else []

/-- Transliteration of `path::is_absolute` (fs.cpp lines 292-298), POSIX
branch: a root directory suffices. -/
def is_absolute (s : List Char) : Bool := rootDirectory s ≠ []

/-- Transliteration of `path::iterator::increment` (fs.cpp lines 988-1006)
starting from offset `pos` (the member `_pos`; the function ignores its
formal parameter and reads `_pos`).  `from_start` is `i == _first`. -/
def iterIncrement (s : List Char) (pos : Nat) : Nat :=
  if pos = s.length then pos
  else
    let c := s.getD pos ' '
    let i := pos + 1
    if c = '/' then
      if i ≠ s.length ∧ s.getD i ' ' = '/' then
        if pos = 0 ∧ ¬(i + 1 ≠ s.length ∧ s.getD (i + 1) ' ' = '/') then
          findCharFrom s (i + 1) ['/']
        else skipWhileSep s i
      else i
    else
      if pos = 0 ∧ i ≠ s.length ∧ s.getD i ' ' = ':' then i + 1
      else findCharFrom s i ['/']

/-- The `_root` offset computed by the iterator constructor (fs.cpp lines
920-938) for `begin()`, where `_pos = _first`: in the `//`-but-not-`///`
case `_root = increment(_first)` is evaluated with `_pos = 0`. -/
def iterRootBegin (s : List Char) : Nat :=
  if s.length ≠ 0 ∧ s.getD 0 ' ' = '/' then
    if 2 ≤ s.length ∧ s.getD 1 ' ' = '/' ∧ ¬(3 ≤ s.length ∧ s.getD 2 ' ' = '/') then
      iterIncrement s 0
    else 0
  else s.length

/-- The `_root` offset computed by the iterator constructor for `end()`,
where `_pos = _last`: since `increment` ignores its parameter and reads
`_pos`, in the `//`-but-not-`///` case the stored root is `_last` itself
(`increment` at `_last` returns `_last`). -/
def iterRootEnd (s : List Char) : Nat :=
  if s.length ≠ 0 ∧ s.getD 0 ' ' = '/' then
    if 2 ≤ s.length ∧ s.getD 1 ' ' = '/' ∧ ¬(3 ≤ s.length ∧ s.getD 2 ' ' = '/') then
      s.length
    else 0
  else s.length

/-- Base offset of the backward `std::find` of `path::iterator::decrement`
(fs.cpp lines 1021-1022): one past the last separator strictly before
offset `i`, or `_first` when there is none. -/
def rfindSep (s : List Char) : Nat → Nat
  | 0 => 0
  | k + 1 => if s.getD k ' ' = '/' then k + 1 else rfindSep s k

/-- Transliteration of `path::iterator::decrement` (fs.cpp lines 1008-1029),
POSIX branch, for an iterator whose stored root offset is `root`. -/
def iterDecrement (s : List Char) (root pos : Nat) : Nat :=
  if pos = 0 then 0
  else
    let i := pos - 1
    if i ≠ root ∧ (pos ≠ s.length ∨ s.getD i ' ' ≠ '/') then
      let i2 := rfindSep s i
      if i2 = 2 ∧ s.getD 0 ' ' = '/' ∧ s.getD 1 ' ' = '/' then i2 - 2 else i2
    else i

/-- Transliteration of `path::iterator::update_current` (fs.cpp lines
978-986): the trailing-separator position yields the empty component;
otherwise the slice up to `increment(_pos)`, collapsed to a single
separator when it both starts and ends with one. -/
def currentAt (s : List Char) (root pos : Nat) : List Char :=
  if pos ≠ 0 ∧ pos ≠ s.length ∧ (s.getD pos ' ' = '/' ∧ pos ≠ root) ∧ pos + 1 = s.length then
    []
  else
    let c := sliceL s pos (iterIncrement s pos)
    if 1 < c.length ∧ c.getD 0 ' ' = '/' ∧ c.getD (c.length - 1) ' ' = '/' then ['/']
    else c

/-- The separator-skipping loop of `path::iterator::operator++` (fs.cpp
line 942), implemented structurally on the remaining characters: the
C++ condition `_pos + 1 != _last` is `rest ≠ []` on the part of the string
after the current offset. -/
def skipSepsAux (root : Nat) : List Char → Nat → Nat
  | [], p => p
  | c :: rest, p =>
      if p ≠ root ∧ c = '/' ∧ rest ≠ [] then skipSepsAux root rest (p + 1) else p

/-- Offset after the `while` loop of `operator++` starting at offset `p`. -/
def skipSeps (s : List Char) (root p : Nat) : Nat := skipSepsAux root (s.drop p) p

/-- Offset reached by `path::iterator::operator++` (fs.cpp lines 940-946). -/
def iterNext (s : List Char) (root pos : Nat) : Nat := skipSeps s root (iterIncrement s pos)

/-- Components visited by iterating `operator++` from offset `pos` until
`_pos` reaches `_last`, each observed through `update_current`.  The fuel
`s.length - pos` is an upper bound on the number of steps because each
`operator++` strictly increases `_pos` (by at least one character). -/
def componentsGo (s : List Char) (root : Nat) : Nat → Nat → List (List Char)
  | 0, _ => []
  | fuel + 1, pos =>
      if pos < s.length then currentAt s root pos :: componentsGo s root fuel (iterNext s root pos)
      else []

/-- The component list of the half-open iterator range starting at `pos`. -/
def componentsFrom (s : List Char) (root pos : Nat) : List (List Char) :=
  componentsGo s root (s.length - pos) pos

/-- The appending loop of `path::append` (fs.cpp lines 220-229): one
separator between components unless the accumulator already ends in one,
and no separator before the first component. -/
def appendLoop (acc : List Char) (first : Bool) : List (List Char) → List Char
  | [] => acc
  | c :: rest =>
      let acc2 :=
        if first = false ∧ ¬(acc ≠ [] ∧ acc.getD (acc.length - 1) ' ' = '/') then acc ++ ['/']
        else acc
      appendLoop (acc2 ++ c) false rest


mutual

/-- Transliteration of `path::append` (fs.cpp lines 204-231), POSIX
configuration, acting on the two native strings.  The branches, in order:
an empty argument appends one trailing separator unless the target is
empty or already separator- or colon-terminated; an absolute argument
satisfying the line-210 condition replaces the target outright; otherwise
the target is reset to its root name (argument has a root directory) or
given a separator (target is absolute without root directory, or has a
filename), and the argument's components (skipping its root name) are
appended by `appendLoop`. -/
def appendP (t o : List Char) : List Char :=
  if o = [] then
    if t ≠ [] ∧ t.getD (t.length - 1) ' ' ≠ '/' ∧ t.getD (t.length - 1) ' ' ≠ ':' then
      t ++ ['/']
    else t
  else
    if is_absolute o = true ∧
        ((t ≠ rootName t ∨ o ≠ ['/']) ∨ (rootName o ≠ [] ∧ rootName o ≠ rootName t)) then
      o
    else
      let base :=
        if rootDirectory o ≠ [] then rootName t
        else if (rootDirectory t = [] ∧ is_absolute t = true) ∨ hasFilename t = true then
          t ++ ['/']
        else t
      let comps0 := componentsFrom o (iterRootBegin o) 0
      let comps := if rootName o ≠ [] then comps0.drop 1 else comps0
      appendLoop base true comps
termination_by 10 * (t.length + o.length)
decreasing_by
  have ho : o.length ≠ 0 := by
    intro hlen
    exact absurd (List.length_eq_zero.mp hlen) (by assumption)
  omega

/-- Transliteration of `path::root_path` (fs.cpp lines 256-258): the root
name APPENDED (via `operator/`) to the root directory. -/
def rootPath (s : List Char) : List Char := appendP (rootName s) (rootDirectory s)
termination_by 10 * s.length + 1
decreasing_by
  have h1 : (rootName s).length ≤ s.length := by
    rw [rootName]
    split
    · split
      · exact Nat.le_refl _
      · simp [List.length_take]
    · simp
  have h2 : (rootName s).length + (rootDirectory s).length ≤ s.length := by
    rw [rootDirectory]
    split
    next h => simpa using h.1
    next => simpa using h1
  omega

/-- Transliteration of `path::relative_path` (fs.cpp lines 260-263): the
suffix of the native string after `root_path()`'s length, clamped by
`maths::min` to the string length. -/
def relativePath (s : List Char) : List Char := s.drop (min (rootPath s).length s.length)
termination_by 10 * s.length + 2
decreasing_by omega

/-- Transliteration of `path::get_filename` (fs.cpp lines 400-403): the
empty path when there is no relative part, else `*--end()`, that is,
`update_current` after `decrement` from `_last` on the `end()` iterator
(whose stored root offset is `iterRootEnd`). -/
def getFilename (s : List Char) : List Char :=
  if relativePath s = [] then []
  else currentAt s (iterRootEnd s) (iterDecrement s (iterRootEnd s) s.length)
termination_by 10 * s.length + 3
decreasing_by omega

/-- Transliteration of `path::has_filename` (fs.cpp lines 288-290). -/
def hasFilename (s : List Char) : Bool := decide (getFilename s ≠ [])
termination_by 10 * s.length + 4
decreasing_by omega

end

/-!
OS-touching operations modelled over explicit per-call oracles.
-/

/-- Result fields of a successful `::stat` that `equivalent` inspects
(fs.cpp line 1377): device, inode, size and modification time. -/
structure statRes where
  dev : Nat
  ino : Nat
  size : Nat
  mtime : Nat
  deriving DecidableEq, Repr

/-- Transliteration of the error-code form of `equivalent` (fs.cpp lines
1338-1379), POSIX branch.  Each argument is the outcome of the `::stat`
call on one path (`Except.error e` is a failing call with `errno = e`).
`ec.clear()` runs on entry; when BOTH stats fail the code sets
`ec = e1 ? e1 : errno` (line 1373-1374); when exactly one fails it returns
`false` with the error code left clear; when both succeed it compares
device, inode, size and mtime. -/
def equivalentEc (r1 r2 : Except Nat statRes) : Bool × Option Nat :=
  match r1, r2 with
  | .error e1, .error e2 => (false, some (if e1 ≠ 0 then e1 else e2))
  | .error _, .ok _ => (false, Option.none)
  | .ok _, .error _ => (false, Option.none)
  | .ok s1, .ok s2 =>
      (s1.dev == s2.dev && s1.ino == s2.ino && s1.size == s2.size && s1.mtime == s2.mtime,
        Option.none)

/-- The `readlink` retry loop of `path::read_symlink` (fs.cpp lines
620-630): a call with buffer size `b` on a link whose stored text is
`content` returns `rc = min content.length b` bytes; the loop returns the
read prefix as soon as `rc` is strictly below the buffer size and
otherwise doubles the buffer.  The `b = 0` guard is unreachable from the
source's starting size 256. -/
def readlinkLoop (content : List Char) (b : Nat) : List Char :=
  if b = 0 then []
  else if content.length < b then content.take (min content.length b)
  else readlinkLoop content (b * 2)
termination_by content.length + 1 - b
decreasing_by omega

/-- Transliteration of the error-code form of `path::read_symlink`
(fs.cpp lines 551-556 and 619-631).  `t` is the entry at the path as seen
by `get_file_type(ec)` (that is `status`, the FOLLOWING form), and `rl` is
the `readlink` oracle: the stored link text on success, an `errno` on
failure.  The result pairs the returned path string with the error code. -/
def read_symlink_ec (t : Option fnode) (rl : Except Nat (List Char)) :
    List Char × Option Nat :=
  if statusOf t ≠ ftype.symlink then ([], some 22)
  else
    match rl with
    | .error e => ([], some e)
    | .ok content => (readlinkLoop content 256, Option.none)

/-- Throwing form of `path::file_size` (fs.cpp lines 472-477) as a function
of the outcome of the error-code form (value, error code): call the
error-code form, then throw exactly when the code is set. -/
def file_size_throwing (o : Nat × Option Nat) : Except Nat Nat :=
  match o.2 with
  | some e => Except.error e
  | Option.none => Except.ok o.1

/-- Throwing form of `path::last_write_time` (fs.cpp lines 498-503):
same call-then-check shape over the error-code form's outcome. -/
def last_write_time_throwing (o : Nat × Option Nat) : Except Nat Nat :=
  match o.2 with
  | some e => Except.error e
  | Option.none => Except.ok o.1

/-- Throwing form of `path::remove` (fs.cpp lines 724-729). -/
def remove_throwing (o : Bool × Option Nat) : Except Nat Bool :=
  match o.2 with
  | some e => Except.error e
  | Option.none => Except.ok o.1

/-- Throwing form of `path::remove_all` (fs.cpp lines 760-765). -/
def remove_all_throwing (o : Nat × Option Nat) : Except Nat Nat :=
  match o.2 with
  | some e => Except.error e
  | Option.none => Except.ok o.1

/-- Throwing form of `path::mkdirs` (fs.cpp lines 672-676), transliterated
as written: a fresh `std::error_code ec` is tested BEFORE `mkdirs(ec)` is
called, so the test always sees the empty code and the outcome of the
error-code form (`o`) is returned with its error discarded. -/
def mkdirs_throwing (o : Bool × Option Nat) : Except Nat Bool :=
  let ecFresh : Option Nat := Option.none
  match ecFresh with
  | some e => Except.error e
  | Option.none => Except.ok o.1

/-- Permission-option flags of `fs::perm_options` as membership booleans
(`opts & flag` tests). -/
structure permOpts where
  replace : Bool
  add : Bool
  remove : Bool
  nofollow : Bool
  deriving DecidableEq, Repr

/-- Value of `perms::unknown`.  Modelled from the spec: the `perms` enum
lives in the header `fs.h`, which is not part of the sources; only the
unknown-permissions placeholder reported by a failed `symlink_status` uses
it, and no claim depends on its numeric value. -/
def permsUnknown : Nat := 65535

/-- Transliteration of the error-code form of `path::permissions` (fs.cpp
lines 518-542), POSIX branch.  `st` is the outcome of `symlink_status(ec)`
(current permission bits on success), `chmodErr` the outcome of the
`::chmod` call.  Result: final error code, and the permission mask passed
to `::chmod` when it is invoked (`Option.none` when no change is
attempted).  The bitmask algebra `|`, `& ~` on the `perms` underlying
integer is modelled from the spec as union (`Nat.lor`) and subtraction
(`Nat.ldiff`). -/
def permissionsEc (prms : Nat) (opts : permOpts) (st : Except Nat Nat)
    (chmodErr : Option Nat) : Option Nat × Option Nat :=
  if opts.replace = false ∧ opts.add = false ∧ opts.remove = false then
    (some 22, Option.none)
  else
    let stEc : Option Nat := match st with | .error e => some e | .ok _ => Option.none
    let cur : Nat := match st with | .error _ => permsUnknown | .ok c => c
    let prms2 :=
      if opts.replace = false then
        if opts.add = true then Nat.lor cur prms else Nat.ldiff cur prms
      else prms
    if opts.nofollow = false then
      ((match chmodErr with | some e => some e | Option.none => stEc), some prms2)
    else (stEc, Option.none)

/-- Transliteration of the error-code form of `path::mkdir` (fs.cpp lines
645-670), POSIX branch.  `t` is the entry at the path; `status(ec1)` uses a
scratch code, `ec` is cleared on entry, and the early `false` return fires
when the status type is not `none` AND `exists()` (a following `stat`)
succeeds.  Otherwise `::mkdir` runs: it fails with `EEXIST = 17` whenever
some entry is present at the path (notably a dangling symlink, which passes
the guard because `exists()` is false for it), and on an absent path its
outcome is the oracle `createErr`. -/
def mkdirEc (t : Option fnode) (createErr : Option Nat) : Bool × Option Nat :=
  let fsType : ftype := statusOf t
  let ex : Bool := match t with | Option.none => false | some n => existsNode n
  if fsType ≠ ftype.none ∧ ex = true then (false, Option.none)
  else
    match (match t with | some _ => some 17 | Option.none => createErr) with
    | some e => (false, some e)
    | Option.none => (true, Option.none)


/-!
Helper lemmas, claim theorems, counterexamples and witnesses.
-/

theorem findCharIdx_le_length (cs : List Char) : ∀ l : List Char, findCharIdx cs l ≤ l.length
  | [] => Nat.le_refl 0
  | c :: rest => by
    rw [findCharIdx]
    split
    · simp
    · simpa using findCharIdx_le_length cs rest

theorem findCharIdx_take (cs : List Char) :
    ∀ (l : List Char) (m : Nat), m ≤ findCharIdx cs l →
      findCharIdx cs (l.take m) = (l.take m).length
  | _, 0, _ => by simp [findCharIdx]
  | [], _ + 1, _ => by simp [findCharIdx]
  | c :: rest, m + 1, h => by
    by_cases hc : cs.contains c = true
    · rw [findCharIdx, if_pos hc] at h
      omega
    · rw [findCharIdx, if_neg hc] at h
      rw [List.take_succ_cons, findCharIdx, if_neg hc, List.length_cons,
        findCharIdx_take cs rest m (by omega)]

theorem getD_take :
    ∀ (s : List Char) (m j : Nat) (d : Char), j < m → (s.take m).getD j d = s.getD j d
  | [], _, _, _, _ => by simp
  | _ :: _, 0, j, _, h => absurd h (Nat.not_lt_zero j)
  | c :: rest, m + 1, 0, d, _ => by simp
  | c :: rest, m + 1, j + 1, d, h => by
    simp only [List.take_succ_cons, List.getD_cons_succ]
    exact getD_take rest m j d (Nat.lt_of_succ_lt_succ h)

theorem findCharFrom_le (s : List Char) (k : Nat) (cs : List Char) :
    findCharFrom s k cs ≤ s.length := by
  have h1 := findCharIdx_le_length cs (s.drop k)
  rw [List.length_drop] at h1
  rw [findCharFrom]
  omega

theorem rootName_spec (s : List Char) :
    rootName s = [] ∨
    ((2 < s.length ∧ s.getD 0 ' ' = '/' ∧ s.getD 1 ' ' = '/' ∧ s.getD 2 ' ' ≠ '/' ∧
        isPrintable (s.getD 2 ' ') = true) ∧
      findCharFrom s 3 ['/', '\\'] = s.length ∧ rootName s = s) ∨
    ((2 < s.length ∧ s.getD 0 ' ' = '/' ∧ s.getD 1 ' ' = '/' ∧ s.getD 2 ' ' ≠ '/' ∧
        isPrintable (s.getD 2 ' ') = true) ∧
      3 ≤ findCharFrom s 3 ['/', '\\'] ∧ findCharFrom s 3 ['/', '\\'] < s.length ∧
      rootName s = s.take (findCharFrom s 3 ['/', '\\'])) := by
  rw [rootName]
  split
  next hg =>
    split
    next he => exact Or.inr (Or.inl ⟨hg, he, rfl⟩)
    next he =>
      refine Or.inr (Or.inr ⟨hg, ?_, ?_, rfl⟩)
      · have h1 := hg.1
        rw [findCharFrom]
        omega
      · exact Nat.lt_of_le_of_ne (findCharFrom_le s 3 ['/', '\\']) he
  next hg => exact Or.inl rfl

theorem rootName_take (s : List Char) : rootName s = s.take (rootName s).length := by
  rcases rootName_spec s with h | ⟨_, _, h⟩ | ⟨_, _, hlt, h⟩
  · rw [h]
    simp
  · rw [h, List.take_length]
  · rw [h, List.length_take, Nat.min_eq_left (Nat.le_of_lt hlt)]

theorem rootName_length_le (s : List Char) : (rootName s).length ≤ s.length := by
  rcases rootName_spec s with h | ⟨_, _, h⟩ | ⟨_, _, hlt, h⟩
  · simp [h]
  · rw [h]
  · rw [h]
    simp [List.length_take]

theorem rootDirectory_spec (s : List Char) :
    (rootDirectory s = [] ∧
      ¬((rootName s).length < s.length ∧ s.getD (rootName s).length ' ' = '/')) ∨
    (rootDirectory s = ['/'] ∧ (rootName s).length < s.length ∧
      s.getD (rootName s).length ' ' = '/') := by
  rw [rootDirectory]
  split
  next h => exact Or.inr ⟨rfl, h⟩
  next h => exact Or.inl ⟨rfl, h⟩

theorem rootName_add_rootDirectory_length_le (s : List Char) :
    (rootName s).length + (rootDirectory s).length ≤ s.length := by
  rcases rootDirectory_spec s with ⟨h, _⟩ | ⟨h, hlt, _⟩
  · rw [h]
    simpa using rootName_length_le s
  · rw [h]
    simpa using hlt

theorem rootName_idem (s : List Char) : rootName (rootName s) = rootName s := by
  rcases rootName_spec s with h | ⟨_, _, h⟩ | ⟨hg, hp3, hplt, h⟩
  · rw [h]
    decide
  · rw [h]
    exact h
  · rw [h]
    obtain ⟨hlen, h0, h1, h2, h3⟩ := hg
    have hple : findCharFrom s 3 ['/', '\\'] ≤ s.length := findCharFrom_le s 3 ['/', '\\']
    have hlen2 : (s.take (findCharFrom s 3 ['/', '\\'])).length = findCharFrom s 3 ['/', '\\'] := by
      rw [List.length_take]
      omega
    have hg2 : 2 < (s.take (findCharFrom s 3 ['/', '\\'])).length ∧
        (s.take (findCharFrom s 3 ['/', '\\'])).getD 0 ' ' = '/' ∧
        (s.take (findCharFrom s 3 ['/', '\\'])).getD 1 ' ' = '/' ∧
        (s.take (findCharFrom s 3 ['/', '\\'])).getD 2 ' ' ≠ '/' ∧
        isPrintable ((s.take (findCharFrom s 3 ['/', '\\'])).getD 2 ' ') = true := by
      rw [hlen2, getD_take s _ 0 ' ' (by omega), getD_take s _ 1 ' ' (by omega),
        getD_take s _ 2 ' ' (by omega)]
      exact ⟨by omega, h0, h1, h2, h3⟩
    have hmin : min 3 s.length = 3 := by omega
    have hidx : findCharIdx ['/', '\\'] (s.drop 3) = findCharFrom s 3 ['/', '\\'] - 3 := by
      conv_rhs => rw [findCharFrom]
      omega
    have hdt : (s.take (findCharFrom s 3 ['/', '\\'])).drop 3 =
        (s.drop 3).take (findCharFrom s 3 ['/', '\\'] - 3) := by
      rw [List.drop_take]
    have hf : findCharFrom (s.take (findCharFrom s 3 ['/', '\\'])) 3 ['/', '\\'] =
        (s.take (findCharFrom s 3 ['/', '\\'])).length := by
      rw [findCharFrom, hlen2, hdt,
        findCharIdx_take ['/', '\\'] (s.drop 3) (findCharFrom s 3 ['/', '\\'] - 3)
          (by rw [hidx]), List.length_take, List.length_drop]
      omega
    rw [rootName, if_pos hg2, if_pos hf]

theorem appendP_nil (t : List Char) :
    appendP t [] =
      if t ≠ [] ∧ t.getD (t.length - 1) ' ' ≠ '/' ∧ t.getD (t.length - 1) ' ' ≠ ':' then
        t ++ ['/']
      else t := by
  rw [appendP]
  simp

theorem appendP_nil_length_ge (t : List Char) : t.length ≤ (appendP t []).length := by
  rw [appendP_nil]
  split
  · simp
  · exact Nat.le_refl _

theorem appendP_slash (t : List Char) (h : rootName t = t) : appendP t ['/'] = t ++ ['/'] := by
  have hcomp : componentsFrom ['/'] (iterRootBegin ['/']) 0 = [['/']] := by decide
  rw [appendP]
  rw [if_neg (by decide : ¬(['/'] = ([] : List Char)))]
  rw [if_neg ?hc]
  case hc =>
    intro hcon
    rcases hcon.2 with (ht | hs) | ⟨hr, _⟩
    · exact ht h.symm
    · exact hs rfl
    · exact hr (by decide)
  simp only [hcomp, h]
  rw [if_pos (by decide : rootDirectory ['/'] ≠ [])]
  rw [if_neg (by decide : ¬(rootName ['/'] ≠ []))]
  simp [appendLoop]

theorem is_absolute_ne_nil (b : List Char) (h : is_absolute b = true) : b ≠ [] := by
  intro hb
  rw [hb] at h
  have : is_absolute [] = false := by decide
  rw [this] at h
  exact Bool.false_ne_true h

theorem rootName_append_rootDirectory_take (s : List Char) :
    rootName s ++ rootDirectory s =
      s.take ((rootName s).length + (rootDirectory s).length) := by
  rcases rootDirectory_spec s with ⟨h, _⟩ | ⟨h, hlt, hch⟩
  · rw [h]
    simpa using rootName_take s
  · rw [h]
    have h1 : s.take ((rootName s).length + 1) =
        s.take (rootName s).length ++ [s.getD (rootName s).length ' '] := by
      rw [List.take_succ, List.getElem?_eq_getElem hlt]
      simp [List.getD_eq_getElem?_getD, List.getElem?_eq_getElem hlt]
    simp only [List.length_singleton, h1, hch]
    rw [← rootName_take s]

theorem rootPath_eq_of (s : List Char) (h : rootDirectory s ≠ []) :
    rootPath s = rootName s ++ rootDirectory s := by
  rcases rootDirectory_spec s with ⟨h0, _⟩ | ⟨h0, _, _⟩
  · exact absurd h0 h
  · rw [rootPath, h0, appendP_slash (rootName s) (rootName_idem s)]

theorem rootPath_nil_rd (s : List Char) (h : rootDirectory s = []) :
    rootPath s = appendP (rootName s) [] := by
  rw [rootPath, h]

theorem readlinkLoop_eq (content : List Char) (b : Nat) (hb : b ≠ 0) :
    readlinkLoop content b = content := by
  rw [readlinkLoop, if_neg hb]
  split
  next h =>
    rw [Nat.min_eq_left (Nat.le_of_lt h), List.take_length]
  next h =>
    exact readlinkLoop_eq content (b * 2) (by omega)
termination_by content.length + 1 - b
decreasing_by omega

theorem followedType_ne_none : ∀ n : fnode, followedType n ≠ ftype.none
  | .regular => by simp [followedType]
  | .dangling => by simp [followedType]
  | .other => by simp [followedType]
  | .dirN _ => by simp [followedType]
  | .symlink t => by
    rw [followedType]
    exact followedType_ne_none t

/-- C1: in `remove_all`'s traversal, the child guard uses the FOLLOWED
status (`iter->status`), so a symlink child whose target is a directory has
status `directory` and IS recursed into: its target's children are removed
through the link and counted, contradicting the claim that such a child is
removed directly as a leaf adding exactly one to the count.  On a directory
holding one symlink to a directory that holds one regular file, the code
removes three entries (the file behind the link, the link, the directory)
where the claimed behaviour would remove two (the link as a leaf, then the
directory). -/
theorem c1_remove_all_descends_symlinked_directory :
    followedType (fnode.symlink (fnode.dirN (flist.cons ['f'] fnode.regular flist.nil))) =
      ftype.directory ∧
    removeAllNode (fnode.symlink (fnode.dirN (flist.cons ['f'] fnode.regular flist.nil))) = 2 ∧
    remove_all ['/', 'd']
      (some (fnode.dirN (flist.cons ['l']
        (fnode.symlink (fnode.dirN (flist.cons ['f'] fnode.regular flist.nil)))
        flist.nil))) = 3 := by
  decide

/-- C3 does not hold as stated: when exactly one of the two `stat` calls
fails, `equivalent` returns `false` with the error code left CLEAR, and
when both fail it SETS the error code; moreover two identified files with
equal device and inode but different sizes compare unequal, so the result
is not the comparison of device and inode identity alone. -/
theorem c3_counterexample :
    equivalentEc (.error 2) (.ok ⟨1, 1, 1, 1⟩) = (false, Option.none) ∧
    equivalentEc (.error 2) (.error 13) = (false, some 2) ∧
    equivalentEc (.ok ⟨1, 1, 5, 7⟩) (.ok ⟨1, 1, 6, 7⟩) = (false, Option.none) := by
  decide

/-- C3 (amended): in the error-code form of `equivalent`, if exactly one of
the two paths cannot be identified the result is false with no error set;
if both fail the call reports an error (the first errno when nonzero, else
the second); if both succeed the result is true exactly when device, inode,
size and last-write-time all agree (POSIX grammar), with no error set. -/
theorem c3_equivalent_amended :
    (∀ (e : Nat) (r : statRes), equivalentEc (.error e) (.ok r) = (false, Option.none)) ∧
    (∀ (r : statRes) (e : Nat), equivalentEc (.ok r) (.error e) = (false, Option.none)) ∧
    (∀ e1 e2 : Nat,
      equivalentEc (.error e1) (.error e2) = (false, some (if e1 ≠ 0 then e1 else e2))) ∧
    (∀ r1 r2 : statRes,
      (equivalentEc (.ok r1) (.ok r2)).2 = Option.none ∧
      ((equivalentEc (.ok r1) (.ok r2)).1 = true ↔
        r1.dev = r2.dev ∧ r1.ino = r2.ino ∧ r1.size = r2.size ∧ r1.mtime = r2.mtime)) := by
  refine ⟨fun e r => rfl, fun r e => rfl, fun e1 e2 => rfl, fun r1 r2 => ⟨rfl, ?_⟩⟩
  simp [equivalentEc]
  tauto

/-- C4: the error-code form of `read_symlink` fails with the
invalid-parameter error (22) and returns the empty path exactly when the
entry's resolved (followed) type is not `symlink`; on an entry whose
resolved type is `symlink` it returns the stored link target text, the
POSIX `readlink` loop retrying with a doubled buffer until the returned
length is strictly below the buffer size. -/
theorem c4_read_symlink :
    (∀ (t : Option fnode) (rl : Except Nat (List Char)),
      statusOf t ≠ ftype.symlink → read_symlink_ec t rl = ([], some 22)) ∧
    (∀ (t : Option fnode) (content : List Char),
      statusOf t = ftype.symlink →
      read_symlink_ec t (.ok content) = (content, Option.none)) ∧
    (∀ (content : List Char) (b : Nat), b ≠ 0 → readlinkLoop content b = content) := by
  refine ⟨fun t rl h => ?_, fun t content h => ?_, fun content b hb => readlinkLoop_eq content b hb⟩
  · rw [read_symlink_ec.eq_def, if_pos h]
  · rw [read_symlink_ec.eq_def, if_neg (by simp [h])]
    simp only []
    rw [readlinkLoop_eq content 256 (by omega)]

/-- C4 witness: a dangling symlink has resolved type `symlink`
(`internal_status` keeps the `lstat` type when the follow-up `stat` fails),
and `read_symlink` returns its stored text without error. -/
theorem c4_read_symlink_witness :
    read_symlink_ec (some fnode.dangling) (.ok ['t', 'g', 't']) =
      (['t', 'g', 't'], Option.none) :=
  c4_read_symlink.2.1 (some fnode.dangling) ['t', 'g', 't'] rfl

/-- C5: `file_size`, `last_write_time`, `remove` and `remove_all` implement
the throwing form as call-the-error-code-form-then-throw-if-set, but the
throwing `mkdirs()` tests a freshly constructed (hence empty) error code
BEFORE calling `mkdirs(ec)`, so it never raises and discards the error the
error-code form reports, contradicting the claim for `mkdirs`. -/
theorem c5_throwing_forms :
    (∀ n e : Nat, file_size_throwing (n, some e) = Except.error e) ∧
    (∀ n : Nat, file_size_throwing (n, Option.none) = Except.ok n) ∧
    (∀ n e : Nat, last_write_time_throwing (n, some e) = Except.error e) ∧
    (∀ n : Nat, last_write_time_throwing (n, Option.none) = Except.ok n) ∧
    (∀ (b : Bool) (e : Nat), remove_throwing (b, some e) = Except.error e) ∧
    (∀ b : Bool, remove_throwing (b, Option.none) = Except.ok b) ∧
    (∀ n e : Nat, remove_all_throwing (n, some e) = Except.error e) ∧
    (∀ n : Nat, remove_all_throwing (n, Option.none) = Except.ok n) ∧
    (∀ (b : Bool) (e : Nat), mkdirs_throwing (b, some e) = Except.ok b) :=
  ⟨fun _ _ => rfl, fun _ => rfl, fun _ _ => rfl, fun _ => rfl, fun _ _ => rfl,
    fun _ => rfl, fun _ _ => rfl, fun _ => rfl, fun _ _ => rfl⟩

/-- C6: `remove_all` returns 1 for a single regular file, 1 for an empty
directory, 0 for a non-existent entry (the traversal is skipped and the
final `remove` fails silently with `ENOENT`), and the maximum-`uintmax_t`
sentinel on the filesystem root `/`, where the guard returns before any
traversal or removal. -/
theorem c6_remove_all_counts :
    (∀ p : List Char, p ≠ ['/'] → remove_all p (some fnode.regular) = 1) ∧
    (∀ p : List Char, p ≠ ['/'] → remove_all p (some (fnode.dirN flist.nil)) = 1) ∧
    (∀ p : List Char, p ≠ ['/'] → remove_all p Option.none = 0) ∧
    (∀ t : Option fnode, remove_all ['/'] t = uintmaxMax) := by
  refine ⟨fun p hp => ?_, fun p hp => ?_, fun p hp => ?_, fun t => ?_⟩
  · rw [remove_all.eq_def, if_neg hp]
    decide
  · rw [remove_all.eq_def, if_neg hp]
    decide
  · rw [remove_all.eq_def, if_neg hp]
  · rw [remove_all.eq_def, if_pos rfl]

/-- C6 witness: the theorem instantiated at concrete paths. -/
theorem c6_remove_all_counts_witness :
    remove_all ['/', 'f'] (some fnode.regular) = 1 ∧
    remove_all ['/', 'e'] (some (fnode.dirN flist.nil)) = 1 ∧
    remove_all ['/', 'n'] Option.none = 0 :=
  ⟨c6_remove_all_counts.1 ['/', 'f'] (by decide),
    c6_remove_all_counts.2.1 ['/', 'e'] (by decide),
    c6_remove_all_counts.2.2.1 ['/', 'n'] (by decide)⟩

/-- C9: the error-code form of `permissions` fails with the
invalid-parameter error and performs no change when `opts` contains none of
replace, add, remove; when `opts` lacks replace, the mask handed to `chmod`
is the union of the current `symlink_status` permissions with `prms` for
add, and their subtraction (current and-not `prms`) otherwise. -/
theorem c9_permissions :
    (∀ (prms : Nat) (opts : permOpts) (st : Except Nat Nat) (ce : Option Nat),
      opts.replace = false → opts.add = false → opts.remove = false →
      permissionsEc prms opts st ce = (some 22, Option.none)) ∧
    (∀ (prms cur : Nat) (opts : permOpts) (ce : Option Nat),
      opts.replace = false → opts.add = true → opts.nofollow = false →
      (permissionsEc prms opts (.ok cur) ce).2 = some (Nat.lor cur prms)) ∧
    (∀ (prms cur : Nat) (opts : permOpts) (ce : Option Nat),
      opts.replace = false → opts.add = false → opts.remove = true → opts.nofollow = false →
      (permissionsEc prms opts (.ok cur) ce).2 = some (Nat.ldiff cur prms)) := by
  refine ⟨fun prms opts st ce h1 h2 h3 => ?_, fun prms cur opts ce h1 h2 h4 => ?_,
    fun prms cur opts ce h1 h2 h3 h4 => ?_⟩
  · rw [permissionsEc.eq_def, if_pos ⟨h1, h2, h3⟩]
  · rw [permissionsEc.eq_def, if_neg (by simp [h2])]
    simp [h1, h2, h4]
  · rw [permissionsEc.eq_def, if_neg (by simp [h3])]
    simp [h1, h2, h4]

/-- C9 witness: the theorem instantiated at concrete masks and options. -/
theorem c9_permissions_witness :
    permissionsEc 5 ⟨false, false, false, false⟩ (.ok 3) Option.none =
      (some 22, Option.none) ∧
    (permissionsEc 5 ⟨false, true, false, false⟩ (.ok 3) Option.none).2 =
      some (Nat.lor 3 5) ∧
    (permissionsEc 5 ⟨false, false, true, false⟩ (.ok 3) Option.none).2 =
      some (Nat.ldiff 3 5) :=
  ⟨c9_permissions.1 5 ⟨false, false, false, false⟩ (.ok 3) Option.none rfl rfl rfl,
    c9_permissions.2.1 5 3 ⟨false, true, false, false⟩ Option.none rfl rfl rfl,
    c9_permissions.2.2 5 3 ⟨false, false, true, false⟩ Option.none rfl rfl rfl rfl⟩

/-- C10 does not hold as stated for every type of existing entry: a dangling
symlink is an existing filesystem entry, but `exists()` (a following
`stat`) fails for it, so `mkdir` falls through to `::mkdir`, which fails
with `EEXIST = 17`: the result is false WITH a non-empty error code. -/
theorem c10_counterexample :
    mkdirEc (some fnode.dangling) Option.none ≠ ((false : Bool), (Option.none : Option Nat)) ∧
    mkdirEc (some fnode.dangling) Option.none = (false, some 17) := by
  decide

/-- C10 (amended): for every path naming an existing entry whose followed
`stat` succeeds (any type, including non-directories), `mkdir(prms, ec)`
returns false with the error code left empty and attempts no creation; a
dangling symlink instead falls through to the creation attempt, which fails
with `EEXIST` (false, error set); on an absent path a creation failure is
false with a non-empty code and a creation success is true. -/
theorem c10_mkdir_amended :
    (∀ (n : fnode) (ce : Option Nat), existsNode n = true →
      mkdirEc (some n) ce = (false, Option.none)) ∧
    (∀ ce : Option Nat, mkdirEc (some fnode.dangling) ce = (false, some 17)) ∧
    (∀ e : Nat, mkdirEc Option.none (some e) = (false, some e)) ∧
    mkdirEc Option.none Option.none = (true, Option.none) := by
  refine ⟨fun n ce h => ?_, fun ce => rfl, fun e => rfl, rfl⟩
  rw [mkdirEc.eq_def]
  rw [if_pos ⟨followedType_ne_none n, h⟩]

/-- C10 witness: the amended theorem instantiated at a regular file. -/
theorem c10_mkdir_amended_witness :
    mkdirEc (some fnode.regular) Option.none = (false, Option.none) :=
  c10_mkdir_amended.1 fnode.regular Option.none rfl

/-- C2 does not hold for every constructed path: on a POSIX string whose
UNC-style root name is terminated by a backslash, `root_directory()` is
empty, so `root_path()` — which APPENDS the root directory to the root name
via `operator/` — gains a trailing separator that is not part of the native
string, and `relative_path()` drops one real character: reconstruction
fails and `root_path() ≠ root_name() + root_directory()`. -/
theorem c2_counterexample :
    rootName ['/', '/', 'a', '\\', 'b'] ++ rootDirectory ['/', '/', 'a', '\\', 'b'] ++
        relativePath ['/', '/', 'a', '\\', 'b'] ≠ ['/', '/', 'a', '\\', 'b'] ∧
    rootPath ['/', '/', 'a', '\\', 'b'] ≠
      rootName ['/', '/', 'a', '\\', 'b'] ++ rootDirectory ['/', '/', 'a', '\\', 'b'] := by
  have h1 : rootName ['/', '/', 'a', '\\', 'b'] = ['/', '/', 'a'] := by decide
  have h2 : rootDirectory ['/', '/', 'a', '\\', 'b'] = [] := by decide
  have hrp : rootPath ['/', '/', 'a', '\\', 'b'] = ['/', '/', 'a', '/'] := by
    rw [rootPath, h1, h2, appendP_nil]
    decide
  have hrel : relativePath ['/', '/', 'a', '\\', 'b'] = ['b'] := by
    rw [relativePath, hrp]
    decide
  constructor
  · rw [hrel, h1, h2]
    decide
  · rw [hrp, h1, h2]
    decide

/-- C2 (amended): `relative_path()` is always exactly the suffix of the
native string after `root_path()`'s length, clamped to the string length;
and both `root_path() = root_name() + root_directory()` and the
reconstruction `root_name() + root_directory() + relative_path() = native`
hold whenever the root name is empty, or the root directory is nonempty,
or the root name ends in a colon (reconstruction also holds when the root
name is the entire string); the only failures are UNC-style root names cut
short by a backslash, where append adds a separator to `root_path()`. -/
theorem c2_decomposition_amended (s : List Char) :
    relativePath s = s.drop (min (rootPath s).length s.length) ∧
    ((rootName s = [] ∨ rootDirectory s ≠ [] ∨
        (rootName s).getD ((rootName s).length - 1) ' ' = ':') →
      rootPath s = rootName s ++ rootDirectory s) ∧
    ((rootName s = [] ∨ rootDirectory s ≠ [] ∨
        (rootName s).getD ((rootName s).length - 1) ' ' = ':' ∨ rootName s = s) →
      rootName s ++ rootDirectory s ++ relativePath s = s) := by
  have hA : relativePath s = s.drop (min (rootPath s).length s.length) := by
    rw [relativePath]
  have hB : (rootName s = [] ∨ rootDirectory s ≠ [] ∨
      (rootName s).getD ((rootName s).length - 1) ' ' = ':') →
      rootPath s = rootName s ++ rootDirectory s := by
    intro h
    by_cases hrd : rootDirectory s = []
    · rw [rootPath_nil_rd s hrd, appendP_nil, hrd, List.append_nil]
      rw [if_neg ?h1]
      case h1 =>
        rintro ⟨hne, _, hc⟩
        rcases h with h | h | h
        · exact hne h
        · exact h hrd
        · exact hc h
    · exact rootPath_eq_of s hrd
  have hgood : (rootName s = [] ∨ rootDirectory s ≠ [] ∨
      (rootName s).getD ((rootName s).length - 1) ' ' = ':') →
      rootName s ++ rootDirectory s ++ relativePath s = s := by
    intro hh
    rw [hA, hB hh, List.length_append,
      Nat.min_eq_left (rootName_add_rootDirectory_length_le s),
      rootName_append_rootDirectory_take s]
    exact List.take_append_drop _ s
  refine ⟨hA, hB, ?_⟩
  intro h
  rcases h with h | h | h | h4
  · exact hgood (Or.inl h)
  · exact hgood (Or.inr (Or.inl h))
  · exact hgood (Or.inr (Or.inr h))
  · have hrd : rootDirectory s = [] := by
      rcases rootDirectory_spec s with ⟨h0, _⟩ | ⟨h0, hlt, _⟩
      · exact h0
      · rw [h4] at hlt
        omega
    have hge : s.length ≤ (rootPath s).length := by
      rw [rootPath_nil_rd s hrd, h4]
      exact appendP_nil_length_ge s
    have hrel : relativePath s = [] := by
      rw [hA, Nat.min_eq_right hge]
      exact List.drop_length s
    rw [hrel, hrd]
    simpa using h4

/-- C2 witness: the amended theorem instantiated at an ordinary absolute
path, where reconstruction and the root-path law both hold. -/
theorem c2_decomposition_amended_witness :
    rootPath ['/', 'u'] = rootName ['/', 'u'] ++ rootDirectory ['/', 'u'] ∧
    rootName ['/', 'u'] ++ rootDirectory ['/', 'u'] ++ relativePath ['/', 'u'] = ['/', 'u'] :=
  ⟨(c2_decomposition_amended ['/', 'u']).2.1 (Or.inl (by decide)),
    (c2_decomposition_amended ['/', 'u']).2.2 (Or.inl (by decide))⟩

/-- C7 does not hold for every absolute `b` with a differing root: when `a`
is exactly its own nonempty root name and `b` is the bare separator path,
`a / b` keeps `a`'s root name and appends a separator instead of yielding
`b`, even though `b` is absolute and the roots differ. -/
theorem c7_counterexample :
    is_absolute ['/'] = true ∧
    rootName ['/'] ≠ rootName ['/', '/', 's', 'r', 'v'] ∧
    rootPath ['/'] ≠ rootPath ['/', '/', 's', 'r', 'v'] ∧
    appendP ['/', '/', 's', 'r', 'v'] ['/'] = ['/', '/', 's', 'r', 'v', '/'] ∧
    appendP ['/', '/', 's', 'r', 'v'] ['/'] ≠ ['/'] := by
  have happ : appendP ['/', '/', 's', 'r', 'v'] ['/'] = ['/', '/', 's', 'r', 'v', '/'] := by
    rw [appendP]
    simp +decide
  have hrp1 : rootPath ['/'] = ['/'] := by
    have h1 : rootName ['/'] = [] := by decide
    have h2 : rootDirectory ['/'] = ['/'] := by decide
    rw [rootPath, h1, h2, appendP]
    simp +decide
  have hrp2 : rootPath ['/', '/', 's', 'r', 'v'] = ['/', '/', 's', 'r', 'v', '/'] := by
    have h1 : rootName ['/', '/', 's', 'r', 'v'] = ['/', '/', 's', 'r', 'v'] := by decide
    have h2 : rootDirectory ['/', '/', 's', 'r', 'v'] = [] := by decide
    rw [rootPath, h1, h2, appendP_nil]
    decide
  refine ⟨by decide, by decide, ?_, happ, by rw [happ]; decide⟩
  rw [hrp1, hrp2]
  decide

/-- C7 (amended): `a / ""` appends exactly one trailing separator when `a`
is nonempty and ends in neither a separator nor a colon, and leaves `a`
unchanged otherwise; and for absolute `b` whose root name differs from
`a`'s, `a / b` yields exactly `b` EXCEPT in the single case where `a`
equals its own root name and `b` is the bare separator path. -/
theorem c7_append_amended :
    (∀ a : List Char, a ≠ [] → a.getD (a.length - 1) ' ' ≠ '/' →
      a.getD (a.length - 1) ' ' ≠ ':' → appendP a [] = a ++ ['/']) ∧
    (∀ a : List Char,
      a = [] ∨ a.getD (a.length - 1) ' ' = '/' ∨ a.getD (a.length - 1) ' ' = ':' →
      appendP a [] = a) ∧
    (∀ a b : List Char, is_absolute b = true → rootName b ≠ rootName a →
      ¬(a = rootName a ∧ b = ['/']) → appendP a b = b) := by
  refine ⟨fun a h1 h2 h3 => ?_, fun a h => ?_, fun a b habs hroot hexc => ?_⟩
  · rw [appendP_nil, if_pos ⟨h1, h2, h3⟩]
  · rw [appendP_nil, if_neg ?_]
    rintro ⟨hne, hs, hc⟩
    rcases h with h | h | h
    · exact hne h
    · exact hs h
    · exact hc h
  · have hcond : is_absolute b = true ∧
        ((a ≠ rootName a ∨ b ≠ ['/']) ∨ (rootName b ≠ [] ∧ rootName b ≠ rootName a)) := by
      refine ⟨habs, ?_⟩
      by_cases hb : rootName b = []
      · by_cases ha : a = rootName a
        · exact Or.inl (Or.inr (fun hbs => hexc ⟨ha, hbs⟩))
        · exact Or.inl (Or.inl ha)
      · exact Or.inr ⟨hb, hroot⟩
    rw [appendP, if_neg (is_absolute_ne_nil b habs), if_pos hcond]

/-- C7 witness: the amended theorem at concrete paths — trailing-separator
append, no-op append on a separator-terminated path, and replacement by an
absolute path with a differing root name. -/
theorem c7_append_amended_witness :
    appendP ['a'] [] = ['a', '/'] ∧
    appendP ['a', '/'] [] = ['a', '/'] ∧
    appendP ['/', 'x'] ['/', '/', 's', 'r', 'v', '/', 'f'] =
      ['/', '/', 's', 'r', 'v', '/', 'f'] :=
  ⟨c7_append_amended.1 ['a'] (by decide) (by decide) (by decide),
    c7_append_amended.2.1 ['a', '/'] (Or.inr (Or.inl (by decide))),
    c7_append_amended.2.2 ['/', 'x'] ['/', '/', 's', 'r', 'v', '/', 'f']
      (by decide) (by decide) (by decide)⟩

/-- C8: `get_filename` is the empty path when the path has no relative
part, and otherwise the component `*--end()` of the path iterator; on
`/usr/local` it is `local` (also the last component the forward iterator
produces) and on `/usr/local/` it is the empty trailing component (the
forward iterator's last component is likewise empty). -/
theorem c8_get_filename :
    (∀ s : List Char, relativePath s = [] → getFilename s = []) ∧
    getFilename ['/', 'u', 's', 'r', '/', 'l', 'o', 'c', 'a', 'l'] =
      ['l', 'o', 'c', 'a', 'l'] ∧
    (componentsFrom ['/', 'u', 's', 'r', '/', 'l', 'o', 'c', 'a', 'l']
        (iterRootBegin ['/', 'u', 's', 'r', '/', 'l', 'o', 'c', 'a', 'l']) 0).getLast? =
      some ['l', 'o', 'c', 'a', 'l'] ∧
    getFilename ['/', 'u', 's', 'r', '/', 'l', 'o', 'c', 'a', 'l', '/'] = [] ∧
    (componentsFrom ['/', 'u', 's', 'r', '/', 'l', 'o', 'c', 'a', 'l', '/']
        (iterRootBegin ['/', 'u', 's', 'r', '/', 'l', 'o', 'c', 'a', 'l', '/']) 0).getLast? =
      some [] := by
  have hrp1 : rootPath ['/', 'u', 's', 'r', '/', 'l', 'o', 'c', 'a', 'l'] = ['/'] := by
    have h1 : rootName ['/', 'u', 's', 'r', '/', 'l', 'o', 'c', 'a', 'l'] = [] := by decide
    have h2 : rootDirectory ['/', 'u', 's', 'r', '/', 'l', 'o', 'c', 'a', 'l'] = ['/'] := by
      decide
    rw [rootPath, h1, h2, appendP]
    simp +decide
  have hrp2 : rootPath ['/', 'u', 's', 'r', '/', 'l', 'o', 'c', 'a', 'l', '/'] = ['/'] := by
    have h1 : rootName ['/', 'u', 's', 'r', '/', 'l', 'o', 'c', 'a', 'l', '/'] = [] := by
      decide
    have h2 : rootDirectory ['/', 'u', 's', 'r', '/', 'l', 'o', 'c', 'a', 'l', '/'] =
        ['/'] := by decide
    rw [rootPath, h1, h2, appendP]
    simp +decide
  refine ⟨fun s h => ?_, ?_, by decide, ?_, by decide⟩
  · rw [getFilename, if_pos h]
  · rw [getFilename]
    have h : relativePath ['/', 'u', 's', 'r', '/', 'l', 'o', 'c', 'a', 'l'] =
        ['u', 's', 'r', '/', 'l', 'o', 'c', 'a', 'l'] := by
      rw [relativePath, hrp1]
      decide
    rw [h]
    simp +decide
  · rw [getFilename]
    have h : relativePath ['/', 'u', 's', 'r', '/', 'l', 'o', 'c', 'a', 'l', '/'] =
        ['u', 's', 'r', '/', 'l', 'o', 'c', 'a', 'l', '/'] := by
      rw [relativePath, hrp2]
      decide
    rw [h]
    simp +decide

/-- C8 witness: a path with no relative part has the empty filename. -/
theorem c8_get_filename_witness : getFilename [] = [] :=
  c8_get_filename.1 [] (by rw [relativePath]; simp)
